import Mathlib

/-!
Verification of the treemap chart engine (one-level projection, drillability,
navigation stack, packing order, overlay rescaling).

The definitions below are a shallow embedding of the TypeScript sources:
  - `src/charts/staticTreeMap/transform.ts` (the Level Projector:
    `extractValue`, `collectAtLevel`, `projectLevel`, `makeSyntheticRoot`,
    and the `canDrillToNextLevel` check of the `TreemapMVP` component),
  - the unnamed TreeMap component file (`buildView`, `hasDescAtLevel`,
    `rescaleChildrenInto`, the navigation stack with `zoomin` / `zoomout`),
  - `src/charts/TreeMap.tsx` (`layoutOneLevel`: the packer ordering step).

JavaScript numbers are modelled as `JSNum` (a finite rational or one of the
non-finite values); all arithmetic that the verified code performs on values
that passed a `Number.isFinite` test is carried out exactly over `ℚ`.
-/

namespace ChartVerify

/-- A JavaScript number: either a finite value (modelled exactly as a
rational) or one of the non-finite values `NaN`, `Infinity`, `-Infinity`. -/
inductive JSNum where
  | num (q : ℚ)
  | nan
  | posInf
  | negInf
deriving Repr, DecidableEq

/-- Result of the JavaScript test `Number.isFinite v` on a
`number | undefined` value (`undefined` is not coerced and yields `false`). -/
def isFiniteOpt : Option JSNum → Bool
  | some (.num _) => true
  | _ => false

/-- The expression `Number.isFinite(v) ? (v as number) : 0` from the source,
applied to a `number | undefined` value. -/
def finiteOr0 : Option JSNum → ℚ
  | some (.num q) => q
  | _ => 0

/-- TS `{ GLOBAL?: number }`, the box holding the global scalar. -/
structure GlobalBox where
  GLOBAL : Option JSNum
deriving Repr, DecidableEq

/-- TS `variable.count` of `transform.ts`: three optional value sources.
A `Record<string, number | undefined>` is modelled as an association list;
an entry whose stored value is `undefined` is modelled as an absent key,
which is indistinguishable through the only read path
(`counts.x?.[k]` followed by `Number.isFinite`). -/
structure Counts where
  country : Option (List (String × JSNum))
  globalBox : Option GlobalBox
  state_us : Option (List (String × JSNum))
deriving Repr, DecidableEq

/-- TS `variable?: { count?: ... }` wrapper object (the `pct` source of the
second component variant is not read by any verified function and is
omitted). The TS field name `variable` is a Lean keyword, hence `varField`. -/
structure VarBox where
  count : Option Counts
deriving Repr, DecidableEq

/-- TS `RawNode` of `transform.ts`: `level` is a plain `number` (integral in
all observed data, modelled as `ℤ`), plus name, optional description, the
optional `variable` box and the children. TS `children?: RawNode[]` is read
only through `?? []`, `?.forEach` and `?.some`, so an absent children array
is modelled as the empty list. -/
inductive RawNode where
  | mk (level : Int) (cluster_name : String) (cluster_description : Option String)
      (varField : Option VarBox) (children : List RawNode)

/-- Field accessor for `RawNode.level`. -/
def RawNode.level : RawNode → Int
  | .mk l _ _ _ _ => l

/-- Field accessor for `RawNode.cluster_name`. -/
def RawNode.cluster_name : RawNode → String
  | .mk _ n _ _ _ => n

/-- Field accessor for `RawNode.cluster_description`. -/
def RawNode.cluster_description : RawNode → Option String
  | .mk _ _ d _ _ => d

/-- Field accessor for the `variable` field of `RawNode`. -/
def RawNode.varField : RawNode → Option VarBox
  | .mk _ _ _ v _ => v

/-- Field accessor for `RawNode.children` (absent array read as `[]`). -/
def RawNode.children : RawNode → List RawNode
  | .mk _ _ _ _ ch => ch

theorem RawNode.sizeOf_children_lt (t : RawNode) : sizeOf t.children < sizeOf t := by
  cases t with
  | mk l n d v ch => simp [RawNode.children]

theorem RawNode.sizeOf_lt_of_mem_children {c t : RawNode} (h : c ∈ t.children) :
    sizeOf c < sizeOf t :=
  lt_trans (List.sizeOf_lt_of_mem h) t.sizeOf_children_lt

/-- Subtree induction principle for `RawNode`: to prove a property of every
node it suffices to prove it for a node assuming it for all its children. -/
theorem RawNode.subtree_ind (P : RawNode → Prop)
    (h : ∀ t : RawNode, (∀ c ∈ t.children, P c) → P t) : ∀ t, P t := by
  intro t
  apply h
  intro c hc
  have hlt : sizeOf c < sizeOf t := RawNode.sizeOf_lt_of_mem_children hc
  exact RawNode.subtree_ind P h c
termination_by t => sizeOf t

/-- TS `RawHierarchy`: the list of top-level (depth 2) nodes. -/
structure RawHierarchy where
  request_hierarchy : List RawNode

/-- TS `makeSyntheticRoot` of `transform.ts`: a synthetic level-3 wrapper
around the whole hierarchy. -/
def makeSyntheticRoot (h : RawHierarchy) : RawNode :=
  .mk 3 "root" (some "Synthetic root") none h.request_hierarchy

/-- TS `MetricMode`. -/
inductive MetricMode where
  | global
  | country
  | state_us
deriving Repr, DecidableEq

/-- JavaScript truthiness of the optional `geoCode` string: `undefined` and
the empty string are falsy. -/
def strTruthy : Option String → Bool
  | none => false
  | some s => s != ""

/-- The empty object that `raw?.variable?.count ?? {}` falls back to. -/
def emptyCounts : Counts := ⟨none, none, none⟩

/-- The expression `raw?.variable?.count ?? {}` of `extractValue`. -/
def countsOf (raw : Option RawNode) : Counts :=
  match raw with
  | some r =>
    match r.varField with
    | some vb =>
      match vb.count with
      | some c => c
      | none => emptyCounts
    | none => emptyCounts
  | none => emptyCounts

/-- The expression `counts.global?.GLOBAL`. -/
def globalGet (c : Counts) : Option JSNum :=
  match c.globalBox with
  | some gb => gb.GLOBAL
  | none => none

/-- The expression `m?.[k]` on an optional record. -/
def recGet (m : Option (List (String × JSNum))) (k : String) : Option JSNum :=
  match m with
  | some l => (l.find? (fun p => p.1 == k)).map (fun p => p.2)
  | none => none

/-- TS `extractValue` of `transform.ts` (the Value Extractor): reads the
selected measure, returning the value when present and finite and `0`
otherwise. The three `if` statements of the source are on mutually
exclusive metric values, rendered as a `match`; the `geoCode` truthiness
guard of the source is `strTruthy`. The result is always a finite number. -/
def extractValue (raw : Option RawNode) (metric : MetricMode) (geoCode : Option String) : ℚ :=
  let counts := countsOf raw
  match metric with
  | .global => finiteOr0 (globalGet counts)
  | .country =>
    if strTruthy geoCode then finiteOr0 (recGet counts.country (geoCode.getD "")) else 0
  | .state_us =>
    if strTruthy geoCode then finiteOr0 (recGet counts.state_us (geoCode.getD "")) else 0

/-- The Value Extractor as §4.1 of the specification words it, written
independently of the code path: if the metric is `global`, return the global
scalar if present and finite, else 0; if the metric is `country` or
`state_us` and a geography code is set, look the code up in the
corresponding mapping and return the value if present and finite, else 0;
otherwise (the metric requires a geography code but none is given) return 0.
A supplied empty-string code counts as "not set": it is the selector
control's "nothing entered" value. -/
def extractSpec (raw : Option RawNode) (metric : MetricMode) (geoCode : Option String) : ℚ :=
  match raw with
  | none => 0
  | some r =>
    match metric, geoCode with
    | .global, _ =>
      match r.varField with
      | some ⟨some c⟩ =>
        match globalGet c with
        | some (.num q) => q
        | _ => 0
      | _ => 0
    | .country, some g =>
      if g = "" then 0
      else
        match r.varField with
        | some ⟨some c⟩ =>
          match recGet c.country g with
          | some (.num q) => q
          | _ => 0
        | _ => 0
    | .state_us, some g =>
      if g = "" then 0
      else
        match r.varField with
        | some ⟨some c⟩ =>
          match recGet c.state_us g with
          | some (.num q) => q
          | _ => 0
        | _ => 0
    | .country, none => 0
    | .state_us, none => 0

/-- Claim C6: for every node and selector the Value Extractor returns the
global scalar when the metric is `global` and that scalar is present and
finite, else 0; the value stored under the geography code in the country
(resp. US state) mapping when the metric is `country` (resp. `state_us`),
the code is set and the value is present and finite, else 0; and 0 when the
metric requires a geography code but none is given. The function is total
and returns a (finite) rational, so it never throws. Stated as a refinement:
the code's `extractValue` coincides with the spec-worded `extractSpec` on
all inputs. -/
theorem extractValue_matches_spec (raw : Option RawNode) (metric : MetricMode)
    (geoCode : Option String) : extractValue raw metric geoCode = extractSpec raw metric geoCode := by
  cases raw with
  | none =>
    cases metric <;> cases geoCode <;>
      simp [extractValue, extractSpec, countsOf, emptyCounts, globalGet, recGet, strTruthy,
        finiteOr0]
  | some r =>
    cases metric with
    | global =>
      cases geoCode <;>
        cases hv : r.varField with
        | none =>
          simp [extractValue, extractSpec, countsOf, hv, emptyCounts, globalGet, finiteOr0]
        | some vb =>
          cases hvc : vb.count <;>
            simp [extractValue, extractSpec, countsOf, hv, hvc, emptyCounts, globalGet,
              finiteOr0] <;>
            (rcases vb with ⟨cnt⟩; simp_all)
    | country =>
      cases geoCode with
      | none => simp [extractValue, extractSpec, strTruthy]
      | some g =>
        by_cases hg : g = "" <;>
          cases hv : r.varField with
          | none =>
            simp [extractValue, extractSpec, countsOf, hv, emptyCounts, recGet, strTruthy,
              finiteOr0, hg]
          | some vb =>
            cases hvc : vb.count <;>
              simp [extractValue, extractSpec, countsOf, hv, hvc, emptyCounts, recGet,
                strTruthy, finiteOr0, hg] <;>
              (rcases vb with ⟨cnt⟩; simp_all)
    | state_us =>
      cases geoCode with
      | none => simp [extractValue, extractSpec, strTruthy]
      | some g =>
        by_cases hg : g = "" <;>
          cases hv : r.varField with
          | none =>
            simp [extractValue, extractSpec, countsOf, hv, emptyCounts, recGet, strTruthy,
              finiteOr0, hg]
          | some vb =>
            cases hvc : vb.count <;>
              simp [extractValue, extractSpec, countsOf, hv, hvc, emptyCounts, recGet,
                strTruthy, finiteOr0, hg] <;>
              (rcases vb with ⟨cnt⟩; simp_all)

mutual

/-- TS `collectAtLevel` of `transform.ts`: push `subtree` onto the output
array when its level matches, then recurse into the children in order
(`subtree.children?.forEach`). The mutated output array `out` is threaded
explicitly; the source's default argument is the empty list. -/
def collectAtLevel (subtree : RawNode) (level : Int) (out : List RawNode) : List RawNode :=
  collectKids subtree.children level
    (if subtree.level == level then out ++ [subtree] else out)
termination_by sizeOf subtree
decreasing_by exact RawNode.sizeOf_children_lt subtree

/-- The `forEach` loop of `collectAtLevel` over a list of children. -/
def collectKids (cs : List RawNode) (level : Int) (out : List RawNode) : List RawNode :=
  match cs with
  | [] => out
  | c :: rest => collectKids rest level (collectAtLevel c level out)
termination_by sizeOf cs
decreasing_by
  all_goals simp
  all_goals omega

end

mutual

/-- TS `hasDescAtLevel` of the unnamed TreeMap component: whether the
subtree rooted at `r` (itself included) contains a node at the given level;
always false for a negative level. -/
def hasDescAtLevel (r : RawNode) (level : Int) : Bool :=
  if level < 0 then false
  else if r.level == level then true
  else anyDescAtLevel r.children level
termination_by sizeOf r
decreasing_by exact RawNode.sizeOf_children_lt r

/-- The `(r.children ?? []).some(...)` step of `hasDescAtLevel`. -/
def anyDescAtLevel (cs : List RawNode) (level : Int) : Bool :=
  match cs with
  | [] => false
  | c :: rest => hasDescAtLevel c level || anyDescAtLevel rest level
termination_by sizeOf cs
decreasing_by
  all_goals simp
  all_goals omega

end

mutual

/-- Depth-first pre-order of a subtree: the node itself, followed by the
pre-orders of its children in stored order. This is the specification-side
traversal order used to state the projector's ordering and membership
properties. -/
def preorder (t : RawNode) : List RawNode :=
  t :: preorderKids t.children
termination_by sizeOf t
decreasing_by exact RawNode.sizeOf_children_lt t

/-- Concatenated pre-orders of a list of sibling subtrees. -/
def preorderKids (cs : List RawNode) : List RawNode :=
  match cs with
  | [] => []
  | c :: rest => preorder c ++ preorderKids rest
termination_by sizeOf cs
decreasing_by
  all_goals simp
  all_goals omega

end

theorem anyDescAtLevel_eq_any (cs : List RawNode) (level : Int) :
    anyDescAtLevel cs level = cs.any (fun c => hasDescAtLevel c level) := by
  induction cs with
  | nil => simp [anyDescAtLevel]
  | cons c rest ih => rw [anyDescAtLevel]; simp [ih]

theorem preorderKids_eq_flatMap (cs : List RawNode) :
    preorderKids cs = cs.flatMap preorder := by
  induction cs with
  | nil => simp [preorderKids]
  | cons c rest ih => rw [preorderKids]; simp [ih]

theorem mem_preorder_self (t : RawNode) : t ∈ preorder t := by
  rw [preorder]; exact List.mem_cons_self t _

/-- The accumulator-threading `collectAtLevel` computes the level-filtered
depth-first pre-order, appended to the incoming accumulator. -/
theorem collectAtLevel_eq_filter_preorder (lvl : Int) : ∀ (t : RawNode) (out : List RawNode),
    collectAtLevel t lvl out = out ++ (preorder t).filter (fun n => n.level == lvl) := by
  have key : ∀ t : RawNode, ∀ out, collectAtLevel t lvl out
      = out ++ (preorder t).filter (fun n => n.level == lvl) := by
    intro t
    induction t using RawNode.subtree_ind with
    | h t ih =>
      have kids : ∀ (cs : List RawNode),
          (∀ c ∈ cs, ∀ out, collectAtLevel c lvl out
            = out ++ (preorder c).filter (fun n => n.level == lvl)) →
          ∀ out, collectKids cs lvl out
            = out ++ (preorderKids cs).filter (fun n => n.level == lvl) := by
        intro cs
        induction cs with
        | nil => intro _ out; rw [collectKids, preorderKids]; simp
        | cons c rest ihr =>
          intro hcs out
          rw [collectKids, preorderKids, hcs c (by simp)]
          rw [ihr (fun c' hc' => hcs c' (List.mem_cons_of_mem _ hc'))]
          simp
      intro out
      rw [collectAtLevel, preorder, kids t.children ih]
      by_cases hl : t.level == lvl <;> simp [hl]
  exact key

/-- TS `TreeNode` as produced for the children of a `projectLevel` view:
`name`, optional `desc`, mirrored `level`, the per-level `value` (always
assigned, and always finite since it comes from `extractValue`), and the
`__raw` back-reference (always assigned). The recursive `children` field is
never set on these nodes and is omitted. -/
structure TileNode where
  name : String
  desc : Option String
  level : Int
  value : ℚ
  raw : RawNode

/-- The view returned by TS `projectLevel`: a wrapper node whose children
are the tiles of the projected level. -/
structure ProjectedView where
  name : String
  level : Int
  children : List TileNode

/-- TS `projectLevel` of `transform.ts` (the Level Projector): map every
node collected at `level` to a tile carrying its extracted value, then
filter out tiles whose value is not finite or not positive. The value is a
rational (hence finite) by construction, so the source's
`Number.isFinite(k.value)` conjunct is identically true. -/
def projectLevel (subtree : RawNode) (level : Int) (metric : MetricMode)
    (geoCode : Option String) : ProjectedView :=
  let kids : List TileNode := (collectAtLevel subtree level []).map (fun rn =>
    { name := rn.cluster_name
      desc := rn.cluster_description
      level := rn.level
      value := extractValue (some rn) metric geoCode
      raw := rn })
  let filtered := kids.filter (fun k => 0 < k.value)
  { name := "level-" ++ toString level, level := level, children := filtered }

/-- TS `canDrillToNextLevel` of the `TreemapMVP` component in
`transform.ts`: `!!rn?.children?.some((ch) => ch.level === level - 1)`. -/
def canDrillToNextLevel (rn : Option RawNode) (level : Int) : Bool :=
  match rn with
  | none => false
  | some r => r.children.any (fun ch => ch.level == level - 1)

/-- TS `ViewNode` as produced for the children of a `buildView` view: the
drillability marker `drill` models whether the source's `children` field is
present (`children: []`) or absent (`undefined`); `raw` models the always
assigned `__raw` back-reference. -/
structure ViewKid where
  name : String
  value : ℚ
  drill : Bool
  raw : RawNode

/-- The root `ViewNode` returned by TS `buildView`: `children` is the
filtered kid list when non-empty, and absent (`undefined`) otherwise. -/
structure ViewRoot where
  name : String
  value : ℚ
  children : Option (List ViewKid)

/-- TS `buildView` of the unnamed TreeMap component: collect the nodes at
`level`, give each its extracted value (the source re-applies
`Number.isFinite`, which is the identity here because `extractValue` already
returns a finite number), mark it drillable when `hasDescAtLevel rn
(level - 1)`, and keep only kids with positive value. -/
def buildView (focus : RawNode) (level : Int) (metric : MetricMode)
    (geo : Option String) : ViewRoot :=
  let kids : List ViewKid := (collectAtLevel focus level []).map (fun rn =>
    { name := rn.cluster_name
      value := extractValue (some rn) metric geo
      drill := hasDescAtLevel rn (level - 1)
      raw := rn })
  let filtered := kids.filter (fun k => 0 < k.value)
  { name := "level-" ++ toString level, value := 0
    children := if filtered.isEmpty then none else some filtered }

mutual

/-- Well-formedness of a cluster subtree, from §3 of the specification:
every node has a non-negative depth and each child's depth is exactly its
parent's depth minus 1 (so depth-0 nodes have no children). -/
def wfNode (r : RawNode) : Bool :=
  (0 ≤ r.level) && wfKids r.children (r.level - 1)
termination_by sizeOf r
decreasing_by exact RawNode.sizeOf_children_lt r

/-- Well-formedness of a list of siblings that must all sit at level `l`. -/
def wfKids (cs : List RawNode) (l : Int) : Bool :=
  match cs with
  | [] => true
  | c :: rest => ((c.level == l) && wfNode c) && wfKids rest l
termination_by sizeOf cs
decreasing_by
  all_goals simp
  all_goals omega

end

theorem wfKids_eq_all (cs : List RawNode) (l : Int) :
    wfKids cs l = cs.all (fun c => (c.level == l) && wfNode c) := by
  induction cs with
  | nil => simp [wfKids]
  | cons c rest ih => rw [wfKids]; simp [ih, Bool.and_assoc]

/-- The sources of the tiles of a projected level, in output order, are
exactly the collected nodes whose extracted value is positive. -/
theorem projectLevel_children_map_raw (subtree : RawNode) (level : Int)
    (metric : MetricMode) (geoCode : Option String) :
    (projectLevel subtree level metric geoCode).children.map (fun t => t.raw)
      = (collectAtLevel subtree level []).filter
          (fun rn => 0 < extractValue (some rn) metric geoCode) := by
  simp only [projectLevel]
  generalize collectAtLevel subtree level [] = l
  induction l with
  | nil => simp
  | cons a l ih =>
    by_cases h : 0 < extractValue (some a) metric geoCode <;> simp [h, ih]

/-- Membership description of the tile list built by `projectLevel`: every
tile comes from a collected node, mirrors its name, level and value, and
has positive value. -/
theorem projectLevel_children_spec (subtree : RawNode) (level : Int)
    (metric : MetricMode) (geoCode : Option String) :
    ∀ t ∈ (projectLevel subtree level metric geoCode).children,
      t.raw ∈ collectAtLevel subtree level [] ∧ t.level = t.raw.level
        ∧ t.value = extractValue (some t.raw) metric geoCode ∧ 0 < t.value := by
  intro t ht
  simp only [projectLevel, List.mem_filter, List.mem_map, decide_eq_true_eq] at ht
  obtain ⟨⟨rn, hrn, hmk⟩, hpos⟩ := ht
  have h1 : t.raw = rn := by rw [← hmk]
  have h2 : t.level = rn.level := by rw [← hmk]
  have h3 : t.value = extractValue (some rn) metric geoCode := by rw [← hmk]
  exact ⟨h1 ▸ hrn, by rw [h2, h1], by rw [h3, h1], hpos⟩

/-- Claim C4: every tile returned by the Level Projector has a finite value
strictly greater than 0 (finiteness holds by construction: values are
rationals), both for `projectLevel` and for the `buildView` variant; and a
matching node whose extracted value is not positive contributes no tile at
all. -/
theorem projector_values_positive (subtree : RawNode) (level : Int)
    (metric : MetricMode) (geoCode : Option String) :
    (∀ t ∈ (projectLevel subtree level metric geoCode).children, 0 < t.value) ∧
    (∀ k ∈ (buildView subtree level metric geoCode).children.getD [], 0 < k.value) ∧
    (∀ rn : RawNode, extractValue (some rn) metric geoCode ≤ 0 →
      ∀ t ∈ (projectLevel subtree level metric geoCode).children, t.raw ≠ rn) := by
  refine ⟨?_, ?_, ?_⟩
  · intro t ht
    simp only [projectLevel, List.mem_filter, decide_eq_true_eq] at ht
    exact ht.2
  · intro k hk
    simp only [buildView] at hk
    rcases hke : ((collectAtLevel subtree level []).map (fun rn =>
        ViewKid.mk rn.cluster_name (extractValue (some rn) metric geoCode)
          (hasDescAtLevel rn (level - 1)) rn)).filter (fun k => 0 < k.value) with _ | _ <;>
      simp only [hke] at hk
    · simp at hk
    · rename_i a l
      have : k ∈ a :: l := by
        by_cases he : (a :: l : List ViewKid).isEmpty <;> simp [he] at hk <;> simp_all
      have := hke ▸ this
      simp only [List.mem_filter, decide_eq_true_eq] at this
      exact this.2
  · intro rn hrn t ht hteq
    simp only [projectLevel, List.mem_filter, List.mem_map, decide_eq_true_eq] at ht
    obtain ⟨⟨rn2, hrn2, hmk⟩, hpos⟩ := ht
    have hraw : t.raw = rn2 := by rw [← hmk]
    have hval : t.value = extractValue (some rn2) metric geoCode := by rw [← hmk]
    rw [hraw] at hteq
    rw [hval, hteq] at hpos
    exact absurd hpos (not_lt.mpr hrn)

/-- Claim C5: every tile returned for a target depth corresponds to a source
node whose depth equals that target, lying within the focus subtree (the
focus node itself included); conversely, every matching node with positive
extracted value yields exactly one tile: the tile sources, in order and with
multiplicity, are exactly the collected nodes with positive value. -/
theorem projector_depth_correct (subtree : RawNode) (level : Int)
    (metric : MetricMode) (geoCode : Option String) :
    ((projectLevel subtree level metric geoCode).children.map (fun t => t.raw)
      = (collectAtLevel subtree level []).filter
          (fun rn => 0 < extractValue (some rn) metric geoCode)) ∧
    (∀ t ∈ (projectLevel subtree level metric geoCode).children,
      t.level = level ∧ t.raw.level = level ∧ t.raw ∈ preorder subtree) := by
  refine ⟨projectLevel_children_map_raw subtree level metric geoCode, ?_⟩
  intro t ht
  obtain ⟨hmem, htl, _, _⟩ := projectLevel_children_spec subtree level metric geoCode t ht
  rw [collectAtLevel_eq_filter_preorder, List.nil_append, List.mem_filter] at hmem
  have hlvl : t.raw.level = level := by simpa using hmem.2
  exact ⟨htl.trans hlvl, hlvl, hmem.1⟩

/-- Claim C9: for a focus subtree all of whose nodes have non-negative depth
and any selector, projecting at a negative target depth returns an empty
tile list (and, the projector being a total function, no error). -/
theorem projectLevel_negative_level_empty (subtree : RawNode) (level : Int)
    (metric : MetricMode) (geoCode : Option String)
    (hneg : level < 0) (hge : ∀ n ∈ preorder subtree, 0 ≤ n.level) :
    (projectLevel subtree level metric geoCode).children = [] := by
  have hc : collectAtLevel subtree level [] = [] := by
    rw [collectAtLevel_eq_filter_preorder, List.nil_append, List.filter_eq_nil_iff]
    intro n hn
    have := hge n hn
    simp only [beq_iff_eq]
    omega
  simp [projectLevel, hc]

/-- Claim C10: the Level Projector returns its tiles in depth-first
pre-order of the focus subtree (a node before its descendants, children in
stored order): the accumulator-threading `collectAtLevel` equals the
level-filtered pre-order, and the tile sources are that pre-order list
further restricted to positive values. Both sides are pure functions of the
inputs, so for a fixed subtree, depth and selector the output sequence is
uniquely determined. -/
theorem projector_output_preorder (subtree : RawNode) (level : Int)
    (metric : MetricMode) (geoCode : Option String) :
    (collectAtLevel subtree level []
      = (preorder subtree).filter (fun n => n.level == level)) ∧
    ((projectLevel subtree level metric geoCode).children.map (fun t => t.raw)
      = ((preorder subtree).filter (fun n => n.level == level)).filter
          (fun rn => 0 < extractValue (some rn) metric geoCode)) := by
  have hcol : collectAtLevel subtree level []
      = (preorder subtree).filter (fun n => n.level == level) := by
    rw [collectAtLevel_eq_filter_preorder, List.nil_append]
  exact ⟨hcol, by rw [projectLevel_children_map_raw, hcol]⟩

theorem hasDescAtLevel_neg (r : RawNode) (l : Int) (h : l < 0) :
    hasDescAtLevel r l = false := by
  rw [hasDescAtLevel]
  simp [h]

theorem wfNode_children {r : RawNode} (h : wfNode r = true) :
    ∀ c ∈ r.children, c.level = r.level - 1 ∧ wfNode c = true := by
  rw [wfNode, Bool.and_eq_true, wfKids_eq_all] at h
  intro c hc
  have hx := List.all_eq_true.1 h.2 c hc
  simp only [Bool.and_eq_true, beq_iff_eq] at hx
  exact hx

theorem wfNode_nonneg {r : RawNode} (h : wfNode r = true) : 0 ≤ r.level := by
  rw [wfNode, Bool.and_eq_true] at h
  simpa using h.1

theorem wfNode_preorder : ∀ r : RawNode, wfNode r = true →
    ∀ n ∈ preorder r, wfNode n = true := by
  intro r
  induction r using RawNode.subtree_ind with
  | h r ih =>
    intro hwf n hn
    rw [preorder] at hn
    rcases List.mem_cons.1 hn with rfl | hn2
    · exact hwf
    · rw [preorderKids_eq_flatMap] at hn2
      obtain ⟨c, hc, hcn⟩ := List.mem_flatMap.1 hn2
      exact ih c hc (wfNode_children hwf c hc).2 n hcn

/-- Well-formed nodes have no children below depth 0; in particular a
well-formed depth-0 node is childless. -/
theorem wfNode_level_zero_childless {r : RawNode} (h : wfNode r = true)
    (hl : r.level = 0) : r.children = [] := by
  rcases hch : r.children with _ | ⟨c, rest⟩
  · rfl
  · exfalso
    have hc := wfNode_children h c (by rw [hch]; exact List.mem_cons_self c rest)
    have := wfNode_nonneg hc.2
    omega

/-- On a well-formed node, the descendant-based drillability test of
`buildView` agrees with the child-based test. -/
theorem hasDescAtLevel_eq_child_check (r : RawNode) (hwf : wfNode r = true) :
    hasDescAtLevel r (r.level - 1)
      = r.children.any (fun c => c.level == r.level - 1) := by
  by_cases hneg : r.level - 1 < 0
  · rw [hasDescAtLevel_neg r _ hneg]
    have hz : r.level = 0 := by have := wfNode_nonneg hwf; omega
    rw [wfNode_level_zero_childless hwf hz]
    rfl
  · rw [hasDescAtLevel]
    have h1 : (r.level == r.level - 1) = false := by simp; omega
    simp only [hneg, if_false, h1, anyDescAtLevel_eq_any]
    rcases hch : r.children with _ | ⟨c, rest⟩
    · simp
    · have hc := wfNode_children hwf c (by rw [hch]; exact List.mem_cons_self c rest)
      have hdc : hasDescAtLevel c (r.level - 1) = true := by
        rw [hasDescAtLevel]
        simp [hneg, hc.1]
      simp [hdc, hc.1]

/-- Membership description of the kid list built by `buildView`: every kid
comes from a collected node, with the recorded value, drill flag and
back-reference, and has positive value. -/
theorem buildView_children_spec (focus : RawNode) (d : Int) (m : MetricMode)
    (g : Option String) :
    ∀ k ∈ (buildView focus d m g).children.getD [],
      k.raw ∈ collectAtLevel focus d [] ∧ k.drill = hasDescAtLevel k.raw (d - 1)
        ∧ k.value = extractValue (some k.raw) m g ∧ 0 < k.value := by
  intro k hk
  simp only [buildView] at hk
  split at hk
  · simp at hk
  · rw [Option.getD_some, List.mem_filter, List.mem_map] at hk
    obtain ⟨⟨rn, hrn, hmk⟩, hpos⟩ := hk
    have h1 : k.raw = rn := by rw [← hmk]
    have h2 : k.drill = hasDescAtLevel rn (d - 1) := by rw [← hmk]
    have h3 : k.value = extractValue (some rn) m g := by rw [← hmk]
    refine ⟨h1 ▸ hrn, h1 ▸ h2, h1 ▸ h3, ?_⟩
    simpa using hpos

/-- Concrete level-1 grandchild used in the C1 counterexample. -/
def cxGrand : RawNode := .mk 1 "C" none none []

/-- Concrete level-0 middle node whose only child sits at level 1. -/
def cxMid : RawNode := .mk 0 "B" none none [cxGrand]

/-- A measure box with a finite global count of 5. -/
def cxCounts : Counts := ⟨none, some ⟨some (.num 5)⟩, none⟩

/-- Concrete level-2 focus node: its only child is at level 0, but a
grandchild sits at level 1. -/
def cxTop : RawNode := .mk 2 "A" none (some ⟨some cxCounts⟩) [cxMid]

/-- Concrete level-0 node with a level "-1" child, for the depth-0 half of
the C1 counterexample. -/
def cxNegChild : RawNode := .mk (-1) "M" none none []

/-- Concrete level-0 focus whose child sits at level -1. -/
def cxNeg : RawNode := .mk 0 "N" none (some ⟨some cxCounts⟩) [cxNegChild]

/-- Claim C1 as stated is false on arbitrary data. First half: `buildView`
at depth 2 on `cxTop` produces one tile that is drillable although its
source node has no child at depth 1 (the only child sits at depth 0; the
depth-1 node is a grandchild). Second half: at depth 0 on `cxNeg`, the
`TreemapMVP` drillability check reports the produced tile drillable because
the source has a child at depth -1. -/
theorem drillable_claim_counterexample :
    ((buildView cxTop 2 MetricMode.global none).children.getD []).map
        (fun k => (k.drill, k.raw.children.map RawNode.level)) = [(true, [0])] ∧
    ((projectLevel cxNeg 0 MetricMode.global none).children.map
        (fun t => canDrillToNextLevel (some t.raw) 0)) = [true] := by
  constructor
  · simp [buildView, collectAtLevel, collectKids, hasDescAtLevel, anyDescAtLevel,
      cxTop, cxMid, cxGrand, cxCounts, extractValue, countsOf, globalGet, finiteOr0,
      RawNode.level, RawNode.children, RawNode.cluster_name, RawNode.varField]
  · simp [projectLevel, collectAtLevel, collectKids, canDrillToNextLevel,
      cxNeg, cxNegChild, cxCounts, extractValue, countsOf, globalGet, finiteOr0,
      RawNode.level, RawNode.children, RawNode.cluster_name, RawNode.varField]

/-- Claim C1 (amended): for every well-formed focus subtree (every node at
depth at least 0, each child exactly one level below its parent), target
depth `d` and selector, a tile produced by the Level Projector is drillable
iff its source node has at least one child at depth `d - 1`, and for
`d = 0` no tile is ever drillable. This covers both implementations: the
`buildView` drill marker and the `TreemapMVP` per-tile check
`canDrillToNextLevel`. -/
theorem drillable_iff_child_at_next_depth (focus : RawNode) (d : Int)
    (metric : MetricMode) (geoCode : Option String) (hwf : wfNode focus = true) :
    (∀ k ∈ (buildView focus d metric geoCode).children.getD [],
      (k.drill = true ↔ ∃ ch ∈ k.raw.children, ch.level = d - 1)
        ∧ (d = 0 → k.drill = false)) ∧
    (∀ t ∈ (projectLevel focus d metric geoCode).children,
      (canDrillToNextLevel (some t.raw) d = true
          ↔ ∃ ch ∈ t.raw.children, ch.level = d - 1)
        ∧ (d = 0 → canDrillToNextLevel (some t.raw) d = false)) := by
  constructor
  · intro k hk
    obtain ⟨hmem, hdrill, _, _⟩ := buildView_children_spec focus d metric geoCode k hk
    rw [collectAtLevel_eq_filter_preorder, List.nil_append, List.mem_filter] at hmem
    have hlvl : k.raw.level = d := by simpa using hmem.2
    have hwfk : wfNode k.raw = true := wfNode_preorder focus hwf k.raw hmem.1
    have heq : k.drill = k.raw.children.any (fun c => c.level == d - 1) := by
      rw [hdrill, ← hlvl, hasDescAtLevel_eq_child_check k.raw hwfk]
    constructor
    · rw [heq, List.any_eq_true]
      simp
    · intro hd0
      rw [heq]
      rw [wfNode_level_zero_childless hwfk (hlvl.trans hd0)]
      rfl
  · intro t ht
    obtain ⟨hmem0, _, _, _⟩ := projectLevel_children_spec focus d metric geoCode t ht
    rw [collectAtLevel_eq_filter_preorder, List.nil_append, List.mem_filter] at hmem0
    have hraw : t.raw.level = d := by simpa using hmem0.2
    have hwft : wfNode t.raw = true := wfNode_preorder focus hwf t.raw hmem0.1
    constructor
    · rw [canDrillToNextLevel, List.any_eq_true]
      simp
    · intro hd0
      rw [canDrillToNextLevel]
      rw [wfNode_level_zero_childless hwft (hraw.trans hd0)]
      rfl

/-- A canvas rectangle; coordinates are modelled exactly over `ℚ`. -/
structure Rect where
  x0 : ℚ
  y0 : ℚ
  x1 : ℚ
  y1 : ℚ
deriving Repr, DecidableEq

/-- The full-canvas rectangle `{ x0: 0, y0: 0, x1: W, y1: H }`. -/
def fullRect (W H : ℚ) : Rect := ⟨0, 0, W, H⟩

/-- A navigation `Frame` of the unnamed TreeMap component:
`{ focus, level, layout, enteredRect }`. The `layout` field is omitted: it
is recomputed by the pure function `layoutOneLevel (buildView focus level
metric geoCode) W H` and carries no independent state. -/
structure Frame where
  focus : RawNode
  level : Int
  enteredRect : Rect

/-- Complete navigation state of one mounted TreeMap instance: the selector
props plus the frame stack. The source keeps the stack in a JS array with
the current frame at the end; the model keeps the current frame at the head
of the list. -/
structure NavState where
  metric : MetricMode
  geoCode : Option String
  stack : List Frame

/-- Default of the `startLevel` prop of the TreeMap component (the
container mounts the component without overriding it). -/
def startLevelDefault : Int := 2

/-- The freshly mounted state: the source initializes
`stack = [buildFrame(syntheticRoot, startLevel, fullRect)]`. -/
def navInit (raw : RawHierarchy) (metric : MetricMode) (geoCode : Option String)
    (startLevel : Int) (W H : ℚ) : NavState :=
  { metric := metric, geoCode := geoCode
    stack := [⟨makeSyntheticRoot raw, startLevel, fullRect W H⟩] }

/-- User-visible navigation events. A drill-down carries the clicked tile's
non-null `__raw` back-reference and its on-screen rectangle. -/
inductive NavEvent where
  | drillDown (raw : RawNode) (clickedRect : Rect)
  | drillUp
  | selectorChange (metric : MetricMode) (geoCode : Option String)

/-- One navigation transition, modelling the component's `zoomin` /
`zoomout` handlers and the selector-change reset:
`zoomin` returns without effect when `current.level <= 0` (the clicked
tile's `__raw` is non-null by construction of the event) and otherwise, at
animation end, pushes the frame for the clicked node at `level - 1` with
the clicked rectangle as `enteredRect`; `zoomout` returns without effect
when `stack.length <= 1` and otherwise pops the current frame; a change of
metric or geography code remounts the component (the container keys the
component by the selector) and also re-runs the effect whose dependency
array lists `metric` and `geoCode`, so either way the stack is rebuilt in
its initial state with the new selector. -/
def navStep (raw : RawHierarchy) (startLevel : Int) (W H : ℚ) (s : NavState) :
    NavEvent → NavState
  | .drillDown rn rect =>
    match s.stack with
    | [] => s
    | cur :: _ =>
      if cur.level ≤ 0 then s
      else { s with stack := ⟨rn, cur.level - 1, rect⟩ :: s.stack }
  | .drillUp =>
    if s.stack.length ≤ 1 then s else { s with stack := s.stack.tail }
  | .selectorChange m g => navInit raw m g startLevel W H

/-- The navigation state reached from a fresh mount after a sequence of
events. -/
def navRun (raw : RawHierarchy) (startLevel : Int) (W H : ℚ) (m : MetricMode)
    (g : Option String) (evs : List NavEvent) : NavState :=
  evs.foldl (navStep raw startLevel W H) (navInit raw m g startLevel W H)

/-- Claim C2: after a change of the metric kind or the geography code, the
navigation state is back at the initial state — the frame stack has exactly
one frame, whose focus is the synthetic root and whose displayed depth is
the configured initial depth 2 — regardless of how the user had navigated
before the change. -/
theorem selector_change_resets (raw : RawHierarchy) (W H : ℚ) (m m2 : MetricMode)
    (g g2 : Option String) (evs : List NavEvent) :
    (navStep raw startLevelDefault W H
        (navRun raw startLevelDefault W H m g evs) (.selectorChange m2 g2)).stack
      = [⟨makeSyntheticRoot raw, 2, fullRect W H⟩] := by
  simp [navStep, navInit, startLevelDefault]

theorem navStep_stack_nonempty (raw : RawHierarchy) (startLevel : Int) (W H : ℚ)
    (s : NavState) (e : NavEvent) (h : 1 ≤ s.stack.length) :
    1 ≤ (navStep raw startLevel W H s e).stack.length := by
  cases e with
  | drillDown rn rect =>
    rw [navStep]
    rcases hs : s.stack with _ | ⟨cur, rest⟩
    · simpa [hs] using h
    · by_cases hl : cur.level ≤ 0 <;> simp [hl, hs] at h ⊢
  | drillUp =>
    rw [navStep]
    by_cases hl : s.stack.length ≤ 1
    · simpa [hl] using h
    · simp only [hl, if_false]
      simp only [List.length_tail]
      omega
  | selectorChange m g => simp [navStep, navInit]

/-- Claim C3: in every reachable navigation state the frame stack has at
least one frame; a valid drill-down increases the stack size by exactly 1;
a valid drill-up decreases it by exactly 1; and a drill-up attempted when
the stack has one frame leaves the whole state unchanged. -/
theorem nav_stack_invariants (raw : RawHierarchy) (startLevel : Int) (W H : ℚ) :
    (∀ (m : MetricMode) (g : Option String) (evs : List NavEvent),
      1 ≤ (navRun raw startLevel W H m g evs).stack.length) ∧
    (∀ (s : NavState) (rn : RawNode) (rect : Rect) (cur : Frame) (rest : List Frame),
      s.stack = cur :: rest → 0 < cur.level →
      (navStep raw startLevel W H s (.drillDown rn rect)).stack.length
        = s.stack.length + 1) ∧
    (∀ s : NavState, 1 < s.stack.length →
      (navStep raw startLevel W H s .drillUp).stack.length = s.stack.length - 1) ∧
    (∀ s : NavState, s.stack.length = 1 →
      navStep raw startLevel W H s .drillUp = s) := by
  refine ⟨?_, ?_, ?_, ?_⟩
  · intro m g evs
    rw [navRun]
    have base : 1 ≤ (navInit raw m g startLevel W H).stack.length := by
      simp [navInit]
    generalize navInit raw m g startLevel W H = s at base ⊢
    induction evs generalizing s with
    | nil => exact base
    | cons e evs ih =>
      rw [List.foldl_cons]
      exact ih _ (navStep_stack_nonempty raw startLevel W H s e base)
  · intro s rn rect cur rest hs hl
    rw [navStep, hs]
    simp only [show ¬ cur.level ≤ 0 by omega, if_false]
    simp
  · intro s hl
    rw [navStep]
    simp only [show ¬ s.stack.length ≤ 1 by omega, if_false]
    rcases hs : s.stack with _ | ⟨cur, rest⟩
    · rw [hs] at hl
      simp at hl
    · simp
  · intro s hl
    rw [navStep]
    simp [hl]

/-- The empty dataset used for the navigation witnesses. -/
def rawEmpty : RawHierarchy := ⟨[]⟩

/-- A concrete two-frame navigation state used in the C3 witness. -/
def navTwoFrames : NavState :=
  ⟨MetricMode.global, none,
    [⟨cxMid, 1, fullRect 1 1⟩, ⟨makeSyntheticRoot rawEmpty, 2, fullRect 1 1⟩]⟩

/-- Witness for C3: the four conjuncts of `nav_stack_invariants`
instantiated at concrete inputs, with every hypothesis discharged on
concrete data. -/
theorem nav_stack_invariants_witness :
    1 ≤ (navRun rawEmpty 2 1 1 MetricMode.global none
      [NavEvent.drillDown cxMid (fullRect 1 1), NavEvent.drillUp]).stack.length ∧
    (navStep rawEmpty 2 1 1 (navInit rawEmpty MetricMode.global none 2 1 1)
        (.drillDown cxMid (fullRect 1 1))).stack.length
      = (navInit rawEmpty MetricMode.global none 2 1 1).stack.length + 1 ∧
    (navStep rawEmpty 2 1 1 navTwoFrames .drillUp).stack.length
      = navTwoFrames.stack.length - 1 ∧
    navStep rawEmpty 2 1 1 (navInit rawEmpty MetricMode.global none 2 1 1) .drillUp
      = navInit rawEmpty MetricMode.global none 2 1 1 := by
  refine ⟨(nav_stack_invariants rawEmpty 2 1 1).1 MetricMode.global none _,
    (nav_stack_invariants rawEmpty 2 1 1).2.1 _ cxMid (fullRect 1 1)
      ⟨makeSyntheticRoot rawEmpty, 2, fullRect 1 1⟩ [] (by simp [navInit]) (by norm_num),
    (nav_stack_invariants rawEmpty 2 1 1).2.2.1 navTwoFrames (by simp [navTwoFrames]),
    (nav_stack_invariants rawEmpty 2 1 1).2.2.2 _ (by simp [navInit])⟩

/-- A child rectangle as consumed and produced by `rescaleChildrenInto`:
the input is a laid-out hierarchy node (corner coordinates plus
`c.data.name` and `c.value`), the output an object with the same fields, so
one record type serves both sides. -/
structure OvRect where
  x0 : ℚ
  x1 : ℚ
  y0 : ℚ
  y1 : ℚ
  name : String
  value : Option ℚ
deriving Repr, DecidableEq

/-- TS `rescaleChildrenInto` of the unnamed TreeMap component (the
`TreeMap.tsx` copy differs only in receiving the laid-out root and reading
`nextRoot.children ?? []` itself): map every child rectangle by the two
independent linear maps determined by the parent rectangle and the canvas
size. -/
def rescaleChildrenInto (nextChildren : List OvRect) (parent : Rect) (W H : ℚ) :
    List OvRect :=
  let sx := (parent.x1 - parent.x0) / W
  let sy := (parent.y1 - parent.y0) / H
  nextChildren.map (fun c =>
    { x0 := parent.x0 + c.x0 * sx
      x1 := parent.x0 + c.x1 * sx
      y0 := parent.y0 + c.y0 * sy
      y1 := parent.y0 + c.y1 * sy
      name := c.name
      value := c.value })

theorem linear_map_bounds (a b W t : ℚ) (hW : 0 < W) (hab : a ≤ b)
    (h0 : 0 ≤ t) (hT : t ≤ W) :
    a ≤ a + t * ((b - a) / W) ∧ a + t * ((b - a) / W) ≤ b := by
  have hs : 0 ≤ (b - a) / W := div_nonneg (by linarith) hW.le
  constructor
  · nlinarith
  · have h1 : t * ((b - a) / W) ≤ W * ((b - a) / W) :=
      mul_le_mul_of_nonneg_right hT hs
    have h2 : W * ((b - a) / W) = b - a := by
      rw [mul_comm, div_mul_cancel₀]
      exact ne_of_gt hW
    linarith

/-- Claim C8: `rescaleChildrenInto` maps each child rectangle's corners by
the two independent linear maps `x ↦ parent.x0 + x * (parent.x1 -
parent.x0) / W` and `y ↦ parent.y0 + y * (parent.y1 - parent.y0) / H`;
consequently every child rectangle lying within the canvas `[0, W] × [0,
H]` is mapped to a rectangle lying within the parent rectangle, and
rescaling into the full-canvas rectangle returns every rectangle unchanged. -/
theorem rescaleChildrenInto_correct (cs : List OvRect) (parent : Rect) (W H : ℚ)
    (hW : 0 < W) (hH : 0 < H) (hpx : parent.x0 ≤ parent.x1)
    (hpy : parent.y0 ≤ parent.y1) :
    (∀ r ∈ rescaleChildrenInto cs parent W H, ∃ c ∈ cs,
      (r.x0 = parent.x0 + c.x0 * ((parent.x1 - parent.x0) / W)
        ∧ r.x1 = parent.x0 + c.x1 * ((parent.x1 - parent.x0) / W)
        ∧ r.y0 = parent.y0 + c.y0 * ((parent.y1 - parent.y0) / H)
        ∧ r.y1 = parent.y0 + c.y1 * ((parent.y1 - parent.y0) / H))
      ∧ ((0 ≤ c.x0 ∧ c.x0 ≤ W) → (0 ≤ c.x1 ∧ c.x1 ≤ W) →
         (0 ≤ c.y0 ∧ c.y0 ≤ H) → (0 ≤ c.y1 ∧ c.y1 ≤ H) →
          (parent.x0 ≤ r.x0 ∧ r.x0 ≤ parent.x1)
            ∧ (parent.x0 ≤ r.x1 ∧ r.x1 ≤ parent.x1)
            ∧ (parent.y0 ≤ r.y0 ∧ r.y0 ≤ parent.y1)
            ∧ (parent.y0 ≤ r.y1 ∧ r.y1 ≤ parent.y1))) ∧
    rescaleChildrenInto cs (fullRect W H) W H = cs := by
  constructor
  · intro r hr
    simp only [rescaleChildrenInto, List.mem_map] at hr
    obtain ⟨c, hc, hmk⟩ := hr
    refine ⟨c, hc, ⟨by rw [← hmk], by rw [← hmk], by rw [← hmk], by rw [← hmk]⟩,
      fun hx0 hx1 hy0 hy1 => ?_⟩
    have e0 : r.x0 = parent.x0 + c.x0 * ((parent.x1 - parent.x0) / W) := by rw [← hmk]
    have e1 : r.x1 = parent.x0 + c.x1 * ((parent.x1 - parent.x0) / W) := by rw [← hmk]
    have e2 : r.y0 = parent.y0 + c.y0 * ((parent.y1 - parent.y0) / H) := by rw [← hmk]
    have e3 : r.y1 = parent.y0 + c.y1 * ((parent.y1 - parent.y0) / H) := by rw [← hmk]
    have b0 := linear_map_bounds parent.x0 parent.x1 W c.x0 hW hpx hx0.1 hx0.2
    have b1 := linear_map_bounds parent.x0 parent.x1 W c.x1 hW hpx hx1.1 hx1.2
    have b2 := linear_map_bounds parent.y0 parent.y1 H c.y0 hH hpy hy0.1 hy0.2
    have b3 := linear_map_bounds parent.y0 parent.y1 H c.y1 hH hpy hy1.1 hy1.2
    rw [e0, e1, e2, e3]
    exact ⟨b0, b1, b2, b3⟩
  · have hWne : W ≠ 0 := ne_of_gt hW
    have hHne : H ≠ 0 := ne_of_gt hH
    simp [rescaleChildrenInto, fullRect, hWne, hHne]

/-- Witness for C8: `rescaleChildrenInto` applied to one concrete child
rectangle of the 2 × 2 canvas and the parent rectangle `[1, 2] × [0, 1]`,
with every hypothesis discharged at these concrete values. -/
theorem rescaleChildrenInto_correct_witness :
    ((0 : ℚ) < 2 ∧ (1 : ℚ) ≤ 2 ∧ (0 : ℚ) ≤ 1) ∧
    (∀ r ∈ rescaleChildrenInto [⟨0, 2, 0, 1, "a", some 3⟩] ⟨1, 0, 2, 1⟩ 2 2,
      ∃ c ∈ ([⟨0, 2, 0, 1, "a", some 3⟩] : List OvRect),
      (r.x0 = (1 : ℚ) + c.x0 * (((2 : ℚ) - 1) / 2)
        ∧ r.x1 = (1 : ℚ) + c.x1 * (((2 : ℚ) - 1) / 2)
        ∧ r.y0 = (0 : ℚ) + c.y0 * (((1 : ℚ) - 0) / 2)
        ∧ r.y1 = (0 : ℚ) + c.y1 * (((1 : ℚ) - 0) / 2))
      ∧ ((0 ≤ c.x0 ∧ c.x0 ≤ 2) → (0 ≤ c.x1 ∧ c.x1 ≤ 2) →
         (0 ≤ c.y0 ∧ c.y0 ≤ 2) → (0 ≤ c.y1 ∧ c.y1 ≤ 2) →
          ((1 : ℚ) ≤ r.x0 ∧ r.x0 ≤ 2) ∧ ((1 : ℚ) ≤ r.x1 ∧ r.x1 ≤ 2)
            ∧ ((0 : ℚ) ≤ r.y0 ∧ r.y0 ≤ 1) ∧ ((0 : ℚ) ≤ r.y1 ∧ r.y1 ≤ 1))) ∧
    rescaleChildrenInto [⟨0, 2, 0, 1, "a", some 3⟩] (fullRect 2 2) 2 2
      = [⟨0, 2, 0, 1, "a", some 3⟩] :=
  ⟨⟨by norm_num, by norm_num, by norm_num⟩,
    (rescaleChildrenInto_correct [⟨0, 2, 0, 1, "a", some 3⟩] ⟨1, 0, 2, 1⟩ 2 2
      (by norm_num) (by norm_num) (by norm_num) (by norm_num)).1,
    (rescaleChildrenInto_correct [⟨0, 2, 0, 1, "a", some 3⟩] ⟨1, 0, 2, 1⟩ 2 2
      (by norm_num) (by norm_num) (by norm_num) (by norm_num)).2⟩

/-- The ordering stage of `layoutOneLevel` in `TreeMap.tsx`:
`.sort((a, b) => (b.value ?? 0) - (a.value ?? 0))` applied to the one-level
children, whose d3 layout value under `.sum((d) => d.value ?? 0)` is each
tile's own value. ECMAScript `Array.prototype.sort` is a stable sort, and a
stable sort's output is uniquely determined by the comparator and the input
order, so it is modelled by the (stable) `List.mergeSort` under the
descending-by-value relation. -/
def layoutSortTiles (tiles : List TileNode) : List TileNode :=
  tiles.mergeSort (fun a b => decide (b.value ≤ a.value))

/-- Stability of `mergeSort` in filter form: restricting the output to any
class of pairwise tie-equivalent elements returns those elements in their
input order. -/
theorem mergeSort_filter_ties {α : Type} (le : α → α → Bool)
    (htrans : ∀ a b c, le a b → le b c → le a c)
    (htotal : ∀ a b, le a b || le b a)
    (p : α → Bool) (hp : ∀ a b, p a → p b → le a b) (l : List α) :
    (l.mergeSort le).filter p = l.filter p := by
  have h1 : List.Sublist (l.filter p) l := List.filter_sublist l
  have hpw : (l.filter p).Pairwise (fun a b => le a b) := by
    apply List.pairwise_of_forall_mem_list
    intro a ha b hb
    exact hp a b (List.mem_filter.1 ha).2 (List.mem_filter.1 hb).2
  have h2 : List.Sublist (l.filter p) (l.mergeSort le) :=
    List.sublist_mergeSort htrans htotal hpw h1
  have h3 : List.Sublist (l.filter p) ((l.mergeSort le).filter p) := by
    have h4 := h2.filter p
    simpa [List.filter_filter] using h4
  have hlen : ((l.mergeSort le).filter p).length = (l.filter p).length :=
    ((List.mergeSort_perm l le).filter p).length_eq
  exact (h3.eq_of_length hlen.symm).symm

/-- Concrete level-0 node with global value 1, listed before its sibling of
value 5, to exhibit a projector output that is not sorted. -/
def cxKidLow : RawNode := .mk 0 "low" none (some ⟨some ⟨none, some ⟨some (.num 1)⟩, none⟩⟩) []

/-- Concrete level-0 node with global value 5. -/
def cxKidHigh : RawNode := .mk 0 "high" none (some ⟨some ⟨none, some ⟨some (.num 5)⟩, none⟩⟩) []

/-- Concrete focus whose level-0 projection lists the value-1 tile before
the value-5 tile. -/
def cxUnsorted : RawNode := .mk 3 "parent" none none [cxKidLow, cxKidHigh]

/-- Claim C7: before computing the rectangle layout, the Rectangular Packer
orders the tiles in descending order of value — the result is a permutation
of the input, pairwise descending by value, and stable: each value class
keeps its input order. The projector itself imposes no order: on a concrete
dataset its output is not descending, so the packer's sort alone determines
the packing order. -/
theorem packer_sorts_descending_stable :
    (∀ tiles : List TileNode,
      (layoutSortTiles tiles).Perm tiles
        ∧ (layoutSortTiles tiles).Pairwise (fun a b => b.value ≤ a.value)
        ∧ (∀ q : ℚ, (layoutSortTiles tiles).filter (fun t => t.value == q)
            = tiles.filter (fun t => t.value == q))) ∧
    ¬ ((projectLevel cxUnsorted 0 MetricMode.global none).children.map
        (fun t => t.value)).Pairwise (fun a b : ℚ => b ≤ a) := by
  have htrans : ∀ a b c : TileNode, decide (b.value ≤ a.value) →
      decide (c.value ≤ b.value) → decide (c.value ≤ a.value) := by
    intro a b c hab hbc
    simp only [decide_eq_true_eq] at hab hbc ⊢
    exact le_trans hbc hab
  have htotal : ∀ a b : TileNode,
      decide (b.value ≤ a.value) || decide (a.value ≤ b.value) := by
    intro a b
    rcases le_total b.value a.value with h | h <;> simp [h]
  constructor
  · intro tiles
    refine ⟨List.mergeSort_perm tiles _, ?_, ?_⟩
    · have hs := List.sorted_mergeSort htrans htotal tiles
      exact hs.imp (fun h => by simpa using h)
    · intro q
      apply mergeSort_filter_ties _ htrans htotal
      intro a b ha hb
      simp only [beq_iff_eq] at ha hb
      simp [ha, hb]
  · have hmap : (projectLevel cxUnsorted 0 MetricMode.global none).children.map
        (fun t => t.value) = [1, 5] := by
      simp [projectLevel, collectAtLevel, collectKids, cxUnsorted, cxKidLow, cxKidHigh,
        extractValue, countsOf, globalGet, finiteOr0, RawNode.level, RawNode.children,
        RawNode.cluster_name, RawNode.cluster_description, RawNode.varField]
    rw [hmap]
    simp only [List.pairwise_cons]
    intro h
    have := h.1 5 (by simp)
    norm_num at this

/-- Concrete well-formed level-0 leaf with global value 5. -/
def wfGrand : RawNode := .mk 0 "g" none (some ⟨some cxCounts⟩) []

/-- Concrete well-formed level-1 node. -/
def wfMid : RawNode := .mk 1 "m" none (some ⟨some cxCounts⟩) [wfGrand]

/-- Concrete well-formed level-2 node. -/
def wfTop : RawNode := .mk 2 "t" none (some ⟨some cxCounts⟩) [wfMid]

theorem wfTop_wf : wfNode wfTop = true := by
  rw [wfNode, wfKids_eq_all]
  rw [show wfTop.children = [wfMid] from rfl]
  simp only [List.all_cons, List.all_nil]
  rw [wfNode, wfKids_eq_all]
  rw [show wfMid.children = [wfGrand] from rfl]
  simp only [List.all_cons, List.all_nil]
  rw [wfNode, wfKids_eq_all]
  rw [show wfGrand.children = ([] : List RawNode) from rfl]
  simp [wfTop, wfMid, wfGrand, RawNode.level]

/-- Witness for the amended C1: the drillability characterisation applied
to the concrete well-formed tree `wfTop` at depth 2, the well-formedness
hypothesis discharged by evaluation. -/
theorem drillable_iff_child_witness :
    wfNode wfTop = true ∧
    ((∀ k ∈ (buildView wfTop 2 MetricMode.global none).children.getD [],
      (k.drill = true ↔ ∃ ch ∈ k.raw.children, ch.level = 2 - 1)
        ∧ ((2 : Int) = 0 → k.drill = false)) ∧
    (∀ t ∈ (projectLevel wfTop 2 MetricMode.global none).children,
      (canDrillToNextLevel (some t.raw) 2 = true
          ↔ ∃ ch ∈ t.raw.children, ch.level = 2 - 1)
        ∧ ((2 : Int) = 0 → canDrillToNextLevel (some t.raw) 2 = false))) :=
  ⟨wfTop_wf, drillable_iff_child_at_next_depth wfTop 2 MetricMode.global none wfTop_wf⟩

/-- Witness for C9: projecting the concrete leaf `wfGrand` (all depths
non-negative) at depth -1 yields the empty tile list; both hypotheses are
discharged at the concrete input. -/
theorem projectLevel_negative_level_empty_witness :
    ((-1 : Int) < 0) ∧ (∀ n ∈ preorder wfGrand, 0 ≤ n.level) ∧
    (projectLevel wfGrand (-1) MetricMode.global none).children = [] :=
  ⟨by norm_num,
    by
      intro n hn
      rw [preorder] at hn
      rw [show wfGrand.children = ([] : List RawNode) from rfl, preorderKids] at hn
      simp only [List.mem_singleton] at hn
      subst hn
      simp [wfGrand, RawNode.level],
    projectLevel_negative_level_empty wfGrand (-1) MetricMode.global none (by norm_num)
      (by
        intro n hn
        rw [preorder] at hn
        rw [show wfGrand.children = ([] : List RawNode) from rfl, preorderKids] at hn
        simp only [List.mem_singleton] at hn
        subst hn
        simp [wfGrand, RawNode.level])⟩

end ChartVerify
